import Mathlib

/-!
Verification of the Revive image pipeline (camera corrections, denoise,
enhance, sharpen) against its natural-language specification.

The Python source is shallowly embedded:

* rasters are total functions from pixel indices (and a channel in `Fin 3`)
  to pixel values — `ℕ` for quantized `uint8`/`uint16` data, `ℚ` or `ℝ` for
  the floating-point working images (arithmetic is modelled exactly; the
  float32 normalize/denormalize round trip `x / max * max` is exact for
  every 8-bit and 16-bit value, checked exhaustively, so exact arithmetic
  agrees with the code on the quantization facts proved here);
* a raster's bit depth (`image.dtype == np.uint16` in the source) is an
  explicit `is16 : Bool` carried next to the pixel data;
* `astype(np.uint8)` / `astype(np.uint16)` on nonnegative data is
  truncation toward zero, modelled with `Int.floor` and `Int.toNat`;
* calls into OpenCV (`cv2.fastNlMeansDenoisingColored`, `cv2.Canny`,
  `cv2.dilate`, `cv2.GaussianBlur`, `cv2.undistort`, the HSV round trip,
  `cv2.Laplacian` + `np.median`) are external library primitives, not code
  of this repository; each call site receives the primitive as an explicit
  function parameter, and theorems that need a fact about a primitive
  (for example that `fastNlMeansDenoisingColored` returns `uint8` data)
  state that fact as a hypothesis.
-/

/-- Elementwise `np.clip(v, lo, hi)` on rationals. -/
def clipQ (v lo hi : ℚ) : ℚ := min (max v lo) hi

/-- Elementwise `np.clip(v, lo, hi)` on reals. -/
noncomputable def clipR (v lo hi : ℝ) : ℝ := min (max v lo) hi

theorem clipQ_le (v lo hi : ℚ) : clipQ v lo hi ≤ hi := min_le_right _ _

theorem clipR_le (v lo hi : ℝ) : clipR v lo hi ≤ hi := min_le_right _ _

theorem clipQ_of_mem (v lo hi : ℚ) (h1 : lo ≤ v) (h2 : v ≤ hi) :
    clipQ v lo hi = v := by
  unfold clipQ
  rw [max_eq_left h1, min_eq_left h2]

theorem clipR_of_mem (v lo hi : ℝ) (h1 : lo ≤ v) (h2 : v ≤ hi) :
    clipR v lo hi = v := by
  unfold clipR
  rw [max_eq_left h1, min_eq_left h2]

/-- Truncation `astype` of a nonnegative rational to an unsigned integer
(`int(v)` / numpy C-cast semantics on in-range data). -/
def truncQ (v : ℚ) : ℕ := (⌊v⌋).toNat

/-- Truncation `astype` of a nonnegative real to an unsigned integer. -/
noncomputable def truncR (v : ℝ) : ℕ := (⌊v⌋).toNat

theorem truncQ_le_of_le (v : ℚ) (m : ℕ) (h : v ≤ m) : truncQ v ≤ m := by
  unfold truncQ
  refine Int.toNat_le.mpr ?_
  have h2 : ⌊v⌋ ≤ ⌊(m : ℚ)⌋ := Int.floor_mono h
  simpa using h2

theorem truncR_le_of_le (v : ℝ) (m : ℕ) (h : v ≤ m) : truncR v ≤ m := by
  unfold truncR
  refine Int.toNat_le.mpr ?_
  have h2 : ⌊v⌋ ≤ ⌊(m : ℝ)⌋ := Int.floor_mono h
  simpa using h2

/-! ## Camera profile registry (`src/cameras/__init__.py`) -/

/-- Camera profile classes known to the registry (`src/cameras/__init__.py`
registers exactly one, `SonyRX1R`). -/
inductive Camera
  | sonyRX1R
deriving DecidableEq

/-- Registry of available cameras: `CAMERAS = {'sony_rx1r': SonyRX1R}`. -/
def CAMERAS : List (String × Camera) := [("sony_rx1r", Camera.sonyRX1R)]

/-- Identifier list used to build the error message
(`', '.join(CAMERAS.keys())`). -/
def availableCameras : String :=
  String.intercalate ", " (CAMERAS.map Prod.fst)

/-- Embedding of `get_camera`: returns the registered profile, or a
`ValueError` (modelled as `Except.error` carrying the message string)
naming the unknown identifier and listing the valid ones. -/
def get_camera (name : String) : Except String Camera :=
  match CAMERAS.lookup name with
  | some c => Except.ok c
  | none =>
      Except.error ("Unknown camera: " ++ name ++ ". Available: " ++ availableCameras)

/-! ## ISO → denoise-strength ladder (`src/cameras/sony_rx1r.py`) -/

/-- Embedding of `SonyRX1R.get_recommended_denoise`. -/
def get_recommended_denoise (iso : ℤ) : String :=
  if iso ≤ 400 then "off"
  else if iso ≤ 1600 then "light"
  else if iso ≤ 6400 then "medium"
  else "strong"

/-- C6: the profile's recommended denoise strength follows the threshold
ladder — ISO ≤ 400 → off, 400 < ISO ≤ 1600 → light, 1600 < ISO ≤ 6400 →
medium, ISO > 6400 → strong; in particular 100 → off, 800 → light,
3200 → medium, 12800 → strong. -/
theorem C6_iso_denoise_ladder :
    (∀ iso : ℤ, (iso ≤ 400 → get_recommended_denoise iso = "off") ∧
      (400 < iso → iso ≤ 1600 → get_recommended_denoise iso = "light") ∧
      (1600 < iso → iso ≤ 6400 → get_recommended_denoise iso = "medium") ∧
      (6400 < iso → get_recommended_denoise iso = "strong")) ∧
    get_recommended_denoise 100 = "off" ∧
    get_recommended_denoise 800 = "light" ∧
    get_recommended_denoise 3200 = "medium" ∧
    get_recommended_denoise 12800 = "strong" := by
  refine ⟨fun iso => ⟨?_, ?_, ?_, ?_⟩, by decide, by decide, by decide, by decide⟩
  · intro h; simp [get_recommended_denoise, h]
  · intro h1 h2
    simp [get_recommended_denoise, h2, not_le.mpr h1]
  · intro h1 h2
    have : ¬ iso ≤ 400 := not_le.mpr (by omega)
    have h16 : ¬ iso ≤ 1600 := not_le.mpr h1
    simp [get_recommended_denoise, this, h16, h2]
  · intro h1
    have h4 : ¬ iso ≤ 400 := not_le.mpr (by omega)
    have h16 : ¬ iso ≤ 1600 := not_le.mpr (by omega)
    have h64 : ¬ iso ≤ 6400 := not_le.mpr h1
    simp [get_recommended_denoise, h4, h16, h64]

/-- C6 witness: the ladder evaluated at ISO 800 hits the light band. -/
theorem C6_iso_denoise_ladder_witness :
    (400 < (800 : ℤ)) ∧ ((800 : ℤ) ≤ 1600) ∧ get_recommended_denoise 800 = "light" :=
  ⟨by decide, by decide,
    (C6_iso_denoise_ladder.1 800).2.1 (by decide) (by decide)⟩

/-- C9: registry lookup by string identifier errors exactly on unregistered
identifiers, the error message names the unknown identifier and lists all
registered identifiers, and a registered identifier returns that camera's
profile. -/
theorem C9_registry_lookup :
    (∀ name : String, name ≠ "sony_rx1r" →
      get_camera name =
        Except.error ("Unknown camera: " ++ name ++ ". Available: " ++ "sony_rx1r")) ∧
    get_camera "sony_rx1r" = Except.ok Camera.sonyRX1R := by
  constructor
  · intro name hne
    have hbeq : (name == "sony_rx1r") = false := beq_eq_false_iff_ne.mpr hne
    have hav : availableCameras = "sony_rx1r" := rfl
    simp [get_camera, CAMERAS, List.lookup, hbeq, hav]
  · rfl

/-- C9 witness: lookup of an unregistered identifier produces the error
message naming it, and the registered identifier resolves. -/
theorem C9_registry_lookup_witness :
    ("nikon_d700" ≠ "sony_rx1r") ∧
    get_camera "nikon_d700" =
      Except.error ("Unknown camera: " ++ "nikon_d700" ++ ". Available: " ++ "sony_rx1r") :=
  ⟨by decide, C9_registry_lookup.1 "nikon_d700" (by decide)⟩

/-! ## Denoiser (`src/core/denoise.py`)

Pixel positions are an abstract finite nonempty index type `ι` (the
denoiser uses no pixel geometry of its own); a color image is
`ι → Fin 3 → ℕ` and a grayscale image is `ι → ℕ`.  Each OpenCV call in the
source is a field of `DenoisePrims`. -/

/-- Denoise strength categories (`'off' | 'light' | 'medium' | 'strong' |
'auto'`). -/
inductive Strength
  | off | light | medium | strong | auto
deriving DecidableEq

/-- The `_strength_params` dictionary (it has no `'auto'` key; the source
only reads it for concrete strengths). -/
def strengthParams : Strength → ℕ
  | .off => 0
  | .light => 3
  | .medium => 6
  | .strong => 10
  | .auto => 0

/-- External OpenCV/numpy primitives used by `Denoiser`, one field per call
site.  `medianAbsLaplacian` stands for the statistic
`np.median(np.abs(cv2.Laplacian(gray, cv2.CV_64F)))`. -/
structure DenoisePrims (ι : Type) where
  cvtGray : (ι → Fin 3 → ℕ) → (ι → ℕ)
  medianAbsLaplacian : (ι → ℕ) → ℚ
  canny : (ι → ℕ) → ℕ → ℕ → (ι → ℕ)
  dilate : (ι → ℕ) → (ι → ℕ)
  gaussBlur55 : (ι → ℚ) → (ι → ℚ)
  nlMeans : (ι → Fin 3 → ℕ) → ℕ → ℕ → ℕ → (ι → Fin 3 → ℕ)
  gaussBlur33 : (ι → Fin 3 → ℚ) → (ι → Fin 3 → ℚ)

/-- Maximum entry of a scalar image (`arr.max()`). -/
def imgMax {ι : Type} [Fintype ι] [Nonempty ι] (m : ι → ℚ) : ℚ :=
  Finset.univ.sup' Finset.univ_nonempty m

theorem le_imgMax {ι : Type} [Fintype ι] [Nonempty ι] (m : ι → ℚ) (i : ι) :
    m i ≤ imgMax m :=
  Finset.le_sup' m (Finset.mem_univ i)

/-- Embedding of `Denoiser._estimate_noise_strength` (only its reachable
code: the four-way threshold on `sigma`; the `fastNlMeansDenoisingColored`
call after the final `return` of the source function is dead code). -/
def estimateNoiseStrength {ι : Type} (P : DenoisePrims ι)
    (image : ι → Fin 3 → ℕ) : ℕ :=
  let gray := P.cvtGray image
  let sigma : ℚ := P.medianAbsLaplacian gray / 0.6745
  if sigma < 5 then 2
  else if sigma < 10 then 4
  else if sigma < 20 then 7
  else 10

/-- Embedding of `Denoiser._denoise_preserve_detail`. -/
def denoisePreserveDetail {ι : Type} [Fintype ι] [Nonempty ι]
    (P : DenoisePrims ι) (image : ι → Fin 3 → ℕ) (h : ℕ) :
    ι → Fin 3 → ℕ :=
  let gray := P.cvtGray image
  let edges := P.canny gray 50 150
  let dil := P.dilate edges
  let blurred := P.gaussBlur55 (fun i => (dil i : ℚ))
  let edge_mask := fun i => blurred i / max (imgMax blurred) 1
  let denoised_strong := P.nlMeans image h 7 21
  let denoised_light := P.nlMeans image (max 2 (h / 2)) 5 15
  fun i c =>
    truncQ ((denoised_strong i c : ℚ) * (1 - edge_mask i) +
      (denoised_light i c : ℚ) * edge_mask i)

/-- Embedding of `Denoiser._restore_detail_16bit`. -/
def restoreDetail16 {ι : Type} (P : DenoisePrims ι)
    (original denoised : ι → Fin 3 → ℕ) : ι → Fin 3 → ℕ :=
  let original_blur := P.gaussBlur33 (fun i c => (original i c : ℚ))
  fun i c =>
    truncQ (clipQ ((denoised i c : ℚ) +
      ((original i c : ℚ) - original_blur i c) * 0.3) 0 65535)

/-- Effective filter parameter `h` chosen by `Denoiser.apply` for a given
strength and (already 8-bit) image. -/
def effectiveH {ι : Type} (P : DenoisePrims ι) (strength : Strength)
    (image8 : ι → Fin 3 → ℕ) : ℕ :=
  if strength = .auto then estimateNoiseStrength P image8
  else strengthParams strength

/-- Embedding of `Denoiser.apply`.  The result is an `Option` because the
`preserve_detail = False` branch calls `self._denoise_standard`, a method
the class does not define (its intended body is unreachable code inside
`_estimate_noise_strength`), so that branch raises `AttributeError`;
it is embedded as `none`. -/
def denoiserApply {ι : Type} [Fintype ι] [Nonempty ι] (P : DenoisePrims ι)
    (strength : Strength) (preserve_detail : Bool)
    (image : ι → Fin 3 → ℕ) (is16 : Bool) : Option (ι → Fin 3 → ℕ) :=
  if strength = .off then some image
  else
    let image8 := if is16 then (fun i c => image i c / 256) else image
    let h := effectiveH P strength image8
    if h = 0 then some image
    else
      match preserve_detail with
      | true =>
          let denoised8 := denoisePreserveDetail P image8 h
          if is16 then
            let upscaled := fun i c => denoised8 i c * 256
            some (restoreDetail16 P image upscaled)
          else some denoised8
      | false => none

/-- Concrete primitives over a one-pixel grid, used to instantiate the
abstract OpenCV parameters in witnesses and counterexamples. -/
def trivPrims : DenoisePrims (Fin 1) :=
  ⟨fun img i => img i 0, fun _ => 0, fun _ _ _ _ => 0, fun m => m,
    fun m => m, fun img _ _ _ => img, fun img => img⟩

/-- Uniform one-pixel raster with the given value. -/
def uniform1 (v : ℕ) : Fin 1 → Fin 3 → ℕ := fun _ _ => v

theorem estimateNoiseStrength_pos {ι : Type} (P : DenoisePrims ι)
    (image : ι → Fin 3 → ℕ) : 0 < estimateNoiseStrength P image := by
  unfold estimateNoiseStrength
  dsimp only
  split_ifs <;> norm_num

theorem effectiveH_pos {ι : Type} (P : DenoisePrims ι) (s : Strength)
    (image8 : ι → Fin 3 → ℕ) (hs : s ≠ .off) : 0 < effectiveH P s image8 := by
  unfold effectiveH
  rcases s with _ | _ | _ | _ | _
  · exact absurd rfl hs
  · simp [strengthParams]
  · simp [strengthParams]
  · simp [strengthParams]
  · simpa using estimateNoiseStrength_pos P image8

/-- C1: the specification's denoise contract (`denoise(raster, config) →
raster'`) fails on the non-edge-aware path — for any raster and any
strength other than `off` (so the filter parameter is nonzero), `apply`
with `preserve_detail = False` reaches the call to the undefined method
`_denoise_standard` and raises, instead of returning a raster. -/
theorem C1_standard_denoise_path_fails {ι : Type} [Fintype ι] [Nonempty ι]
    (P : DenoisePrims ι) (s : Strength) (image : ι → Fin 3 → ℕ) (is16 : Bool)
    (hs : s ≠ .off) :
    denoiserApply P s false image is16 = none := by
  unfold denoiserApply
  rw [if_neg hs]
  have hpos := effectiveH_pos P s (if is16 then (fun i c => image i c / 256) else image) hs
  simp only [if_neg (Nat.pos_iff_ne_zero.mp hpos)]

/-- C1 witness: the failing path evaluated at a concrete one-pixel 8-bit
raster with strength light and detail preservation off. -/
theorem C1_standard_denoise_path_fails_witness :
    (Strength.light ≠ Strength.off) ∧
    denoiserApply trivPrims Strength.light false (uniform1 0) false = none :=
  ⟨by decide, C1_standard_denoise_path_fails trivPrims Strength.light (uniform1 0) false
    (by decide)⟩

/-- Specification-side contract for the 16-bit denoise path, written from
the spec's words: filter an 8-bit downscale of the input, upscale the
filtered result back to 16-bit scale, add exactly 30% of the original
image's high-frequency residual (original minus a mild blur of the
original), and clip to the 16-bit range. -/
def denoise16SpecContract {ι : Type}
    (blur : (ι → Fin 3 → ℚ) → (ι → Fin 3 → ℚ))
    (filter8 : (ι → Fin 3 → ℕ) → (ι → Fin 3 → ℕ))
    (image : ι → Fin 3 → ℕ) : ι → Fin 3 → ℕ :=
  let downscaled := fun i c => image i c / 256
  let filtered := filter8 downscaled
  let residual := fun i c =>
    (image i c : ℚ) - blur (fun j d => (image j d : ℚ)) i c
  fun i c => truncQ (clipQ ((filtered i c * 256 : ℕ) + residual i c * 0.3) 0 65535)

/-- C7 (amended to the edge-aware configurations): for every 16-bit raster
and nonzero strength with detail preservation on, `Denoiser.apply` returns
exactly the spec's 16-bit contract — the edge-aware filter applied to the
8-bit downscale, upscaled by 256, plus 30% of the high-frequency residual,
clipped to [0, 65535] — and every returned pixel value fits in `uint16`. -/
theorem C7_denoise16_refines_contract {ι : Type} [Fintype ι] [Nonempty ι]
    (P : DenoisePrims ι) (s : Strength) (image : ι → Fin 3 → ℕ)
    (hs : s ≠ .off) :
    denoiserApply P s true image true =
      some (denoise16SpecContract P.gaussBlur33
        (fun img8 => denoisePreserveDetail P img8 (effectiveH P s img8)) image) ∧
    (∀ r : ι → Fin 3 → ℕ, denoiserApply P s true image true = some r →
      ∀ i c, r i c ≤ 65535) := by
  have hpos := effectiveH_pos P s (fun i c => image i c / 256) hs
  have hmain : denoiserApply P s true image true =
      some (denoise16SpecContract P.gaussBlur33
        (fun img8 => denoisePreserveDetail P img8 (effectiveH P s img8)) image) := by
    unfold denoiserApply denoise16SpecContract
    rw [if_neg hs]
    simp only [if_true, if_neg (Nat.pos_iff_ne_zero.mp hpos), restoreDetail16]
  refine ⟨hmain, fun r hr i c => ?_⟩
  rw [hmain] at hr
  have hr2 := Option.some.inj hr
  subst hr2
  unfold denoise16SpecContract
  refine truncQ_le_of_le _ _ (le_trans (clipQ_le _ _ _) (by norm_num))

/-- C7 counterexample to the claim as stated: among "every configuration
with a nonzero effective strength" is detail preservation off, where the
16-bit path does not return the described raster at all (the undefined
`_denoise_standard` is reached). -/
theorem C7_counterexample :
    denoiserApply trivPrims Strength.medium false (uniform1 65535) true = none := by
  decide

/-- C7 witness: the amended contract at a concrete one-pixel 16-bit raster. -/
theorem C7_denoise16_refines_contract_witness :
    (Strength.light ≠ Strength.off) ∧
    (denoiserApply trivPrims Strength.light true (uniform1 1000) true =
      some (denoise16SpecContract trivPrims.gaussBlur33
        (fun img8 => denoisePreserveDetail trivPrims img8
          (effectiveH trivPrims Strength.light img8)) (uniform1 1000)) ∧
    (∀ r : Fin 1 → Fin 3 → ℕ,
      denoiserApply trivPrims Strength.light true (uniform1 1000) true = some r →
      ∀ i c, r i c ≤ 65535)) :=
  ⟨by decide, C7_denoise16_refines_contract trivPrims Strength.light (uniform1 1000)
    (by decide)⟩

theorem imgMax_const {ι : Type} [Fintype ι] [Nonempty ι] (q : ℚ) :
    imgMax (fun _ : ι => q) = q := by
  unfold imgMax
  exact Finset.sup'_const (Finset.univ_nonempty (α := ι)) q

theorem denoisePreserveDetail_const255 {ι : Type} [Fintype ι] [Nonempty ι]
    (P : DenoisePrims ι) (h : ℕ)
    (hCanny : P.canny (P.cvtGray (fun _ _ => 255)) 50 150 = fun _ => 0)
    (hDil : P.dilate (fun _ => 0) = fun _ => 0)
    (hBlur55 : P.gaussBlur55 (fun _ => (0 : ℚ)) = fun _ => 0)
    (hNl : ∀ hh t sw, P.nlMeans (fun _ _ => 255) hh t sw = fun _ _ => 255) :
    denoisePreserveDetail P (fun _ _ => 255) h = fun _ _ => 255 := by
  unfold denoisePreserveDetail
  simp only [hCanny, hDil, Nat.cast_zero, hBlur55, hNl, imgMax_const]
  funext i c
  norm_num [truncQ]
  decide

/-- C10: a uniform full-white 16-bit raster (all 65535) denoised at any
concrete nonzero strength with detail preservation on comes back uniformly
65280, not 65535 — the 8-bit round trip rescales by 256 and the
high-frequency residual of a constant image is zero.  The behavior of the
external OpenCV kernels on constant images (no Canny edges, blurs and
non-local means fix constants) enters as explicit hypotheses. -/
theorem C10_white_is_not_preserved {ι : Type} [Fintype ι] [Nonempty ι]
    (P : DenoisePrims ι) (s : Strength)
    (hs : s = .light ∨ s = .medium ∨ s = .strong)
    (hCanny : P.canny (P.cvtGray (fun _ _ => 255)) 50 150 = fun _ => 0)
    (hDil : P.dilate (fun _ => 0) = fun _ => 0)
    (hBlur55 : P.gaussBlur55 (fun _ => (0 : ℚ)) = fun _ => 0)
    (hNl : ∀ hh t sw, P.nlMeans (fun _ _ => 255) hh t sw = fun _ _ => 255)
    (hBlur33 : P.gaussBlur33 (fun _ _ => ((65535 : ℕ) : ℚ)) = fun _ _ => 65535) :
    denoiserApply P s true (fun _ _ => 65535) true = some (fun _ _ => 65280) := by
  have hoff : s ≠ .off := by rcases hs with h | h | h <;> subst h <;> decide
  have h8 : (fun (i : ι) (c : Fin 3) => (65535 : ℕ) / 256) = fun _ _ => (255 : ℕ) := by
    funext i c
    rfl
  unfold denoiserApply
  rw [if_neg hoff]
  simp only [if_true, h8]
  have hpos : effectiveH P s (fun _ _ => 255) ≠ 0 := by
    rcases hs with h | h | h <;> subst h <;> simp [effectiveH, strengthParams]
  rw [if_neg hpos]
  rw [denoisePreserveDetail_const255 P _ hCanny hDil hBlur55 hNl]
  have hup : (fun (i : ι) (c : Fin 3) => (255 : ℕ) * 256) = fun _ _ => (65280 : ℕ) := by
    funext i c
    rfl
  simp only [hup]
  unfold restoreDetail16
  simp only [hBlur33]
  refine congrArg some ?_
  funext i c
  have hc : clipQ (((65280 : ℕ) : ℚ) + (((65535 : ℕ) : ℚ) - 65535) * 0.3) 0 65535 = 65280 := by
    push_cast
    norm_num [clipQ]
  rw [hc]
  norm_num [truncQ]
  decide

/-- C10 witness: the full-white behavior evaluated with concrete one-pixel
primitives that fix constants. -/
theorem C10_white_is_not_preserved_witness :
    (Strength.light = Strength.light ∨ Strength.light = Strength.medium ∨
      Strength.light = Strength.strong) ∧
    denoiserApply trivPrims Strength.light true (fun _ _ => 65535) true =
      some (fun _ _ => 65280) :=
  ⟨Or.inl rfl,
    C10_white_is_not_preserved trivPrims Strength.light (Or.inl rfl)
      rfl rfl rfl (fun _ _ _ => rfl) rfl⟩

/-! ## Tone enhancer (`src/core/enhance.py`)

The enhancer works on concrete `(height, width, 3)` grids.  A quantized
raster is `NImg h w`, the floating-point working image is `RImg h w`
(float32 arithmetic modelled exactly over `ℝ`; the tone curve uses
`Real.sin` and exposure/highlights use real exponentiation, matching
`np.sin` and `**`). -/

/-- Quantized raster on an `h × w` grid. -/
abbrev NImg (h w : ℕ) := Fin h → Fin w → Fin 3 → ℕ

/-- Floating-point working raster on an `h × w` grid. -/
abbrev RImg (h w : ℕ) := Fin h → Fin w → Fin 3 → ℝ

/-- Maximum representable value for the raster's dtype
(`65535.0 if original_dtype == np.uint16 else 255.0`). -/
def maxvN (is16 : Bool) : ℕ := if is16 then 65535 else 255

/-- Enhancement parameters (`Enhancer.__init__`); the pipeline's identity
configuration is contrast 1, exposure 0, saturation 1, shadows 0,
highlights 0, curve off. -/
structure EnhConfig where
  contrast : ℝ
  exposure : ℝ
  saturation : ℝ
  shadows : ℝ
  highlights : ℝ
  apply_curve : Bool

/-- Embedding of `Enhancer._apply_saturation`: the working image is clipped
and quantized to 8-bit, the OpenCV HSV round trip (RGB→HSV, scale the S
channel by the multiplier with clip to [0, 255], cast to uint8, HSV→RGB)
is the external primitive `satHSV`, and the result is renormalized by 255. -/
noncomputable def applySaturation {h w : ℕ} (satHSV : ℝ → NImg h w → NImg h w)
    (saturation : ℝ) (img : RImg h w) : RImg h w :=
  let img8 : NImg h w := fun y x c => truncR (clipR (img y x c) 0 1 * 255)
  fun y x c => (satHSV saturation img8 y x c : ℝ) / 255

/-- Embedding of `Enhancer._apply_s_curve`. -/
noncomputable def applySCurve {h w : ℕ} (img : RImg h w) : RImg h w :=
  fun y x c => img y x c + 0.05 * Real.sin (Real.pi * img y x c)

open Classical in
/-- Embedding of `Enhancer.apply`: normalize to [0, 1] float, then the six
conditionally-skipped steps (exposure, shadows, highlights, contrast,
saturation, s-curve), then clip to [0, 1] and re-quantize to the source
depth. -/
noncomputable def enhancerApply {h w : ℕ} (satHSV : ℝ → NImg h w → NImg h w)
    (cfg : EnhConfig) (input : NImg h w) (is16 : Bool) : NImg h w :=
  let maxv : ℝ := if is16 then 65535 else 255
  let img0 : RImg h w := fun y x c => (input y x c : ℝ) / maxv
  let i1 := if cfg.exposure ≠ 0 then
      (fun y x c => img0 y x c * (2 : ℝ) ^ cfg.exposure) else img0
  let i2 := if cfg.shadows > 0 then
      (fun y x c => i1 y x c + cfg.shadows * 0.1 * (1 - i1 y x c) * (1 - i1 y x c))
    else i1
  let i3 := if cfg.highlights > 0 then
      (fun y x c => 1 - (1 - i2 y x c) ^ (1 + cfg.highlights * 0.5)) else i2
  let i4 := if cfg.contrast ≠ 1 then
      (fun y x c => (i3 y x c - 0.5) * cfg.contrast + 0.5) else i3
  let i5 := if cfg.saturation ≠ 1 then applySaturation satHSV cfg.saturation i4 else i4
  let i6 := if cfg.apply_curve then applySCurve i5 else i5
  fun y x c => truncR (clipR (i6 y x c) 0 1 * maxv)

theorem quantize_normalize_id (n m : ℕ) (hm : 0 < m) (hn : n ≤ m) :
    truncR (clipR ((n : ℝ) / m) 0 1 * m) = n := by
  have hm2 : (0 : ℝ) < m := by exact_mod_cast hm
  have h1 : (n : ℝ) / m ≤ 1 := by
    rw [div_le_one hm2]
    exact_mod_cast hn
  have h0 : 0 ≤ (n : ℝ) / m := div_nonneg (Nat.cast_nonneg n) (le_of_lt hm2)
  rw [clipR_of_mem _ _ _ h0 h1, div_mul_cancel₀ _ (ne_of_gt hm2)]
  unfold truncR
  simp

/-- C2: with contrast 1, exposure 0, saturation 1, shadows 0, highlights 0
and the tone curve disabled, `Enhancer.apply` returns every valid raster
(8-bit or 16-bit) exactly unchanged. -/
theorem C2_enhancer_identity {h w : ℕ} (satHSV : ℝ → NImg h w → NImg h w)
    (input : NImg h w) (is16 : Bool)
    (hIn : ∀ y x c, input y x c ≤ maxvN is16) :
    enhancerApply satHSV ⟨1, 0, 1, 0, 0, false⟩ input is16 = input := by
  funext y x c
  simp only [enhancerApply]
  cases is16 with
  | false =>
      norm_num
      simpa using quantize_normalize_id (input y x c) 255 (by norm_num)
        (by simpa [maxvN] using hIn y x c)
  | true =>
      norm_num
      simpa using quantize_normalize_id (input y x c) 65535 (by norm_num)
        (by simpa [maxvN] using hIn y x c)

/-- C2 witness: the identity configuration on a concrete one-pixel 8-bit
raster of value 123. -/
theorem C2_enhancer_identity_witness :
    (∀ (y x : Fin 1) (c : Fin 3), (fun (_ : Fin 1) (_ : Fin 1) (_ : Fin 3) => 123) y x c ≤
      maxvN false) ∧
    enhancerApply (fun _ m => m) ⟨1, 0, 1, 0, 0, false⟩
      (fun (_ : Fin 1) (_ : Fin 1) (_ : Fin 3) => 123) false =
      (fun (_ : Fin 1) (_ : Fin 1) (_ : Fin 3) => 123) :=
  ⟨fun _ _ _ => by norm_num [maxvN],
    C2_enhancer_identity (fun _ m => m) _ false (fun _ _ _ => by norm_num [maxvN])⟩

/-! ## Camera corrections (`src/cameras/sony_rx1r.py`)

The five sub-corrections of `SonyRX1R.apply_corrections` on an `h × w`
grid.  `cv2.undistort` (together with the camera matrix set-up feeding it)
and the channel `cv2.GaussianBlur` are external primitives passed as
function parameters. -/

/-- Distance of pixel `(y, x)` from the image center, divided by the
distance from the center to the farthest corner (`dist` in
`_correct_vignette` and `_reduce_chromatic_aberration`). -/
noncomputable def normDist (hh ww : ℕ) (y x : ℕ) : ℝ :=
  Real.sqrt (((x : ℝ) - ww / 2) ^ 2 + ((y : ℝ) - hh / 2) ^ 2) /
    Real.sqrt ((ww / 2) ^ 2 + (hh / 2) ^ 2)

/-- Lens coefficients of the `SonyRX1R` dataclass. -/
structure RX1RCoeffs where
  barrel_distortion : ℝ
  vignette_strength : ℝ
  italian_flag_strength : ℝ
  shadow_warmth : ℝ
  green_blue_shift : ℝ

/-- Default coefficients of the `SonyRX1R` dataclass (barrel −0.008,
vignette 0.15, the three color-cast strengths disabled at 0). -/
noncomputable def defaultRX1R : RX1RCoeffs := ⟨-0.008, 0.15, 0, 0, 0⟩

open Classical in
/-- Embedding of `SonyRX1R._correct_barrel_distortion`: a no-op for
`|k1| < 1e-4`; otherwise the working image is quantized to `uint8` via
`(image * 255).astype(np.uint8)`, undistorted by the external
`cv2.undistort` (with the camera matrices built from `k1`), and
renormalized by 255. -/
noncomputable def correctBarrelDistortion {h w : ℕ}
    (undistort : ℝ → NImg h w → NImg h w) (k1 : ℝ) (img : RImg h w) :
    RImg h w :=
  if |k1| < 0.0001 then img
  else
    let img_uint : NImg h w := fun y x c => truncR (img y x c * 255)
    fun y x c => (undistort k1 img_uint y x c : ℝ) / 255

/-- Value of `np.linspace(-1, 1, w)` at index `x`. -/
noncomputable def linspaceVal (w : ℕ) (x : ℕ) : ℝ :=
  if w ≤ 1 then -1 else -1 + 2 * (x : ℝ) / ((w : ℝ) - 1)

/-- Embedding of `SonyRX1R._correct_italian_flag`. -/
noncomputable def correctItalianFlag {h w : ℕ} (strength : ℝ)
    (img : RImg h w) : RImg h w :=
  fun y x c =>
    let xg := linspaceVal w x
    let correction : ℝ :=
      if c = 0 then -xg * strength else if c = 2 then xg * strength else 0
    let luminance := (img y x 0 + img y x 1 + img y x 2) / 3
    let midtone_mask := 4 * luminance * (1 - luminance)
    clipR (img y x c + correction * midtone_mask) 0 1

/-- Embedding of `SonyRX1R._correct_vignette`:
`clip(image * (1 + strength * dist ** 2), 0, 1)`. -/
noncomputable def correctVignette {h w : ℕ} (strength : ℝ) (img : RImg h w) :
    RImg h w :=
  fun y x c => clipR (img y x c * (1 + strength * normDist h w y x ^ 2)) 0 1

open Classical in
/-- Embedding of `SonyRX1R._correct_color_cast` (the green-dominance test
reads the red channel after the shadow-warmth update, as the source does). -/
noncomputable def correctColorCast {h w : ℕ} (shadow_warmth green_blue_shift : ℝ)
    (img : RImg h w) : RImg h w :=
  fun y x c =>
    let luminance := 0.299 * img y x 0 + 0.587 * img y x 1 + 0.114 * img y x 2
    let shadow_mask := clipR (1 - luminance * 2) 0 1
    let r2 := img y x 0 + shadow_mask * shadow_warmth
    let b2 := if img y x 1 > img y x 2 ∧ img y x 1 > r2 then
        img y x 2 - green_blue_shift * img y x 1
      else img y x 2
    clipR (if c = 0 then r2 else if c = 2 then b2 else img y x 1) 0 1

/-- Corner mask of `_reduce_chromatic_aberration`:
`clip((dist - 0.7) / 0.3, 0, 1)`. -/
noncomputable def cornerMask (hh ww : ℕ) (y x : ℕ) : ℝ :=
  clipR ((normDist hh ww y x - 0.7) / 0.3) 0 1

/-- Maximum of the corner mask over the pixel grid (`corner_mask.max()`;
the mask entries are clipped to [0, 1], so folding `max` from 0 agrees
with the numpy maximum on every nonempty grid). -/
noncomputable def cornerMaskMax (hh ww : ℕ) : ℝ :=
  ((List.finRange hh).flatMap (fun y => (List.finRange ww).map
    (fun x => cornerMask hh ww y x))).foldr max 0

open Classical in
/-- Embedding of `SonyRX1R._reduce_chromatic_aberration`: skip when the
corner mask's maximum is below 0.01; otherwise blend the red and blue
channels toward their blurred versions proportionally to the corner mask,
leaving green untouched. -/
noncomputable def reduceChromaticAberration {h w : ℕ}
    (gaussBlurChan : (Fin h → Fin w → ℝ) → (Fin h → Fin w → ℝ))
    (img : RImg h w) : RImg h w :=
  if cornerMaskMax h w < 0.01 then img
  else
    let red_blur := gaussBlurChan (fun y x => img y x 0)
    let blue_blur := gaussBlurChan (fun y x => img y x 2)
    fun y x c =>
      if c = 0 then
        img y x 0 * (1 - cornerMask h w y x) + red_blur y x * cornerMask h w y x
      else if c = 2 then
        img y x 2 * (1 - cornerMask h w y x) + blue_blur y x * cornerMask h w y x
      else img y x 1

/-- Embedding of `SonyRX1R.apply_corrections`: normalize by the dtype
maximum, run the five sub-corrections in order, clip to [0, 1] and
re-quantize to the original dtype. -/
noncomputable def applyCorrections {h w : ℕ}
    (undistort : ℝ → NImg h w → NImg h w)
    (gaussBlurChan : (Fin h → Fin w → ℝ) → (Fin h → Fin w → ℝ))
    (coeffs : RX1RCoeffs) (input : NImg h w) (is16 : Bool) : NImg h w :=
  let maxv : ℝ := if is16 then 65535 else 255
  let img0 : RImg h w := fun y x c => (input y x c : ℝ) / maxv
  let i1 := correctBarrelDistortion undistort coeffs.barrel_distortion img0
  let i2 := correctItalianFlag coeffs.italian_flag_strength i1
  let i3 := correctVignette coeffs.vignette_strength i2
  let i4 := correctColorCast coeffs.shadow_warmth coeffs.green_blue_shift i3
  let i5 := reduceChromaticAberration gaussBlurChan i4
  fun y x c => truncR (clipR (i5 y x c) 0 1 * maxv)

theorem normDist_corner (hh ww : ℕ) (h1 : 0 < hh) (h2 : 0 < ww) :
    normDist hh ww 0 0 = 1 := by
  unfold normDist
  have hww : (0 : ℝ) < ww := by exact_mod_cast h2
  have hhh : (0 : ℝ) < hh := by exact_mod_cast h1
  have harg : (0 : ℝ) < ((ww : ℝ) / 2) ^ 2 + ((hh : ℝ) / 2) ^ 2 := by
    have hx : (0 : ℝ) < ((ww : ℝ) / 2) ^ 2 := by positivity
    nlinarith [sq_nonneg ((hh : ℝ) / 2)]
  have hnum : (((0 : ℕ) : ℝ) - (ww : ℝ) / 2) ^ 2 + (((0 : ℕ) : ℝ) - (hh : ℝ) / 2) ^ 2 =
      ((ww : ℝ) / 2) ^ 2 + ((hh : ℝ) / 2) ^ 2 := by
    push_cast
    ring
  rw [hnum]
  exact div_self (ne_of_gt (Real.sqrt_pos.mpr harg))

theorem normDist_center (a b : ℕ) : normDist (2 * a) (2 * b) a b = 0 := by
  unfold normDist
  have hnum : ((b : ℝ) - ((2 * b : ℕ) : ℝ) / 2) ^ 2 + ((a : ℝ) - ((2 * a : ℕ) : ℝ) / 2) ^ 2 =
      0 := by
    push_cast
    ring
  rw [hnum, Real.sqrt_zero, zero_div]

theorem cornerMask_eq_zero (hh ww y x : ℕ) (hd : normDist hh ww y x ≤ 0.7) :
    cornerMask hh ww y x = 0 := by
  unfold cornerMask clipR
  have hv : (normDist hh ww y x - 0.7) / 0.3 ≤ 0 :=
    div_nonpos_of_nonpos_of_nonneg (by linarith) (by norm_num)
  rw [max_eq_right hv, min_eq_left (by norm_num)]

/-- C8: the chromatic-aberration step never changes the green channel,
leaves every channel of pixels at normalized radius at most 0.7 unchanged,
and returns the raster unchanged whenever the corner mask's maximum is
below 0.01. -/
theorem C8_chromatic_aberration (h w : ℕ)
    (gb : (Fin h → Fin w → ℝ) → (Fin h → Fin w → ℝ)) (img : RImg h w) :
    (∀ (y : Fin h) (x : Fin w),
      reduceChromaticAberration gb img y x 1 = img y x 1) ∧
    (∀ (y : Fin h) (x : Fin w), normDist h w y x ≤ 0.7 →
      ∀ c, reduceChromaticAberration gb img y x c = img y x c) ∧
    (cornerMaskMax h w < 0.01 → reduceChromaticAberration gb img = img) := by
  by_cases hskip : cornerMaskMax h w < 0.01
  · unfold reduceChromaticAberration
    rw [if_pos hskip]
    exact ⟨fun _ _ => rfl, fun _ _ _ _ => rfl, fun _ => rfl⟩
  · unfold reduceChromaticAberration
    rw [if_neg hskip]
    refine ⟨fun y x => ?_, fun y x hd c => ?_, fun hlt => absurd hlt hskip⟩
    · have h10 : (1 : Fin 3) ≠ 0 := by decide
      have h12 : (1 : Fin 3) ≠ 2 := by decide
      rw [if_neg h10, if_neg h12]
    · have hm := cornerMask_eq_zero h w y x hd
      fin_cases c <;> simp [hm]

/-- C8 witness: a pixel at the exact center of a 4 × 4 grid (normalized
radius 0) passes through the chromatic-aberration step unchanged on every
channel. -/
theorem C8_chromatic_aberration_witness :
    (normDist 4 4 (((⟨2, by norm_num⟩ : Fin 4)) : ℕ) (((⟨2, by norm_num⟩ : Fin 4)) : ℕ) ≤
      0.7) ∧
    (∀ c, reduceChromaticAberration (h := 4) (w := 4) (fun m => m)
      (fun _ _ _ => (1 / 2 : ℝ)) ⟨2, by norm_num⟩ ⟨2, by norm_num⟩ c = (1 / 2 : ℝ)) := by
  have hd : normDist 4 4 (((⟨2, by norm_num⟩ : Fin 4)) : ℕ)
      (((⟨2, by norm_num⟩ : Fin 4)) : ℕ) ≤ 0.7 := by
    have h0 : normDist (2 * 2) (2 * 2) 2 2 = 0 := normDist_center 2 2
    norm_num at h0
    show normDist 4 4 2 2 ≤ 0.7
    rw [h0]
    norm_num
  exact ⟨hd, fun c =>
    (C8_chromatic_aberration 4 4 (fun m => m) (fun _ _ _ => (1 / 2 : ℝ))).2.1
      ⟨2, by norm_num⟩ ⟨2, by norm_num⟩ hd c⟩

/-- C4 counterexample to the claim as stated: on the uniform mid-gray
raster 0.5 with strengths 1 < 3, the corner value saturates at the clip
bound under both strengths (and the center values agree), so the corner is
not strictly brighter relative to the center for the larger strength. -/
theorem C4_counterexample :
    ((1 : ℝ) < 3) ∧
    correctVignette (h := 2) (w := 2) 1 (fun _ _ _ => (1 / 2 : ℝ)) 0 0 0 =
      correctVignette (h := 2) (w := 2) 3 (fun _ _ _ => (1 / 2 : ℝ)) 0 0 0 ∧
    correctVignette (h := 2) (w := 2) 1 (fun _ _ _ => (1 / 2 : ℝ)) 1 1 0 =
      correctVignette (h := 2) (w := 2) 3 (fun _ _ _ => (1 / 2 : ℝ)) 1 1 0 := by
  have hcor : normDist 2 2 (((0 : Fin 2)) : ℕ) (((0 : Fin 2)) : ℕ) = 1 := by
    have := normDist_corner 2 2 (by norm_num) (by norm_num)
    simpa using this
  have hcen : normDist 2 2 (((1 : Fin 2)) : ℕ) (((1 : Fin 2)) : ℕ) = 0 := by
    have h0 : normDist (2 * 1) (2 * 1) 1 1 = 0 := normDist_center 1 1
    norm_num at h0
    simpa using h0
  refine ⟨by norm_num, ?_, ?_⟩
  · unfold correctVignette
    rw [hcor]
    norm_num [clipR]
  · unfold correctVignette
    rw [hcen]
    norm_num

/-- C4 (amended with the conditions the clipping forces): for a uniform
gray raster of positive value `g` and strengths `0 ≤ s1 < s2` such that the
corner value does not clip (`g·(1+s2) ≤ 1`), the corner pixel is strictly
brighter under `s2` than under `s1` while the exact-center pixel equals `g`
under both — corner brightness relative to the center strictly increases
with the vignette strength. -/
theorem C4_vignette_monotonic (h w : ℕ) (g s1 s2 : ℝ)
    (y0 : Fin h) (x0 : Fin w) (yc : Fin h) (xc : Fin w)
    (hy0 : (y0 : ℕ) = 0) (hx0 : (x0 : ℕ) = 0)
    (hyc : h = 2 * (yc : ℕ)) (hxc : w = 2 * (xc : ℕ))
    (hg : 0 < g) (hs1 : 0 ≤ s1) (h12 : s1 < s2)
    (hnoclip : g * (1 + s2) ≤ 1) :
    correctVignette s1 (fun _ _ _ => g) y0 x0 0 <
      correctVignette s2 (fun _ _ _ => g) y0 x0 0 ∧
    correctVignette s1 (fun _ _ _ => g) yc xc 0 = g ∧
    correctVignette s2 (fun _ _ _ => g) yc xc 0 = g := by
  have hs2 : 0 < s2 := lt_of_le_of_lt hs1 h12
  have hg1 : g ≤ 1 := by nlinarith
  have hcor : normDist h w (y0 : ℕ) (x0 : ℕ) = 1 := by
    rw [hy0, hx0]
    exact normDist_corner h w y0.pos x0.pos
  have hcen : normDist h w (yc : ℕ) (xc : ℕ) = 0 := by
    obtain ⟨n, hn⟩ : ∃ n, (yc : ℕ) = n := ⟨_, rfl⟩
    obtain ⟨m, hm⟩ : ∃ m, (xc : ℕ) = m := ⟨_, rfl⟩
    rw [hn] at hyc
    rw [hm] at hxc
    rw [hn, hm, hyc, hxc]
    exact normDist_center n m
  have hval : ∀ s : ℝ, 0 ≤ s → g * (1 + s) ≤ 1 →
      correctVignette s (fun _ _ _ => g) y0 x0 0 = g * (1 + s) := by
    intro s hs hcl
    unfold correctVignette
    rw [hcor]
    norm_num
    exact clipR_of_mem _ _ _ (by nlinarith) hcl
  have hcenval : ∀ s : ℝ, correctVignette s (fun _ _ _ => g) yc xc 0 = g := by
    intro s
    unfold correctVignette
    rw [hcen]
    norm_num
    exact clipR_of_mem _ _ _ hg.le hg1
  refine ⟨?_, hcenval s1, hcenval s2⟩
  rw [hval s1 hs1 (by nlinarith), hval s2 hs2.le hnoclip]
  have hlt : (1 : ℝ) + s1 < 1 + s2 := by linarith
  exact mul_lt_mul_of_pos_left hlt hg

/-- C4 witness: the amended monotonicity at gray 1/4 with strengths 0 < 1
on a 2 × 2 grid. -/
theorem C4_vignette_monotonic_witness :
    (((0 : Fin 2) : ℕ) = 0) ∧ (2 = 2 * ((1 : Fin 2) : ℕ)) ∧ (0 < (1 / 4 : ℝ)) ∧
    ((0 : ℝ) ≤ 0) ∧ ((0 : ℝ) < 1) ∧ ((1 / 4 : ℝ) * (1 + 1) ≤ 1) ∧
    (correctVignette (h := 2) (w := 2) 0 (fun _ _ _ => (1 / 4 : ℝ)) 0 0 0 <
      correctVignette (h := 2) (w := 2) 1 (fun _ _ _ => (1 / 4 : ℝ)) 0 0 0 ∧
    correctVignette (h := 2) (w := 2) 0 (fun _ _ _ => (1 / 4 : ℝ)) 1 1 0 = 1 / 4 ∧
    correctVignette (h := 2) (w := 2) 1 (fun _ _ _ => (1 / 4 : ℝ)) 1 1 0 = 1 / 4) :=
  ⟨rfl, rfl, by norm_num, le_refl 0, by norm_num, by norm_num,
    C4_vignette_monotonic 2 2 (1 / 4) 0 1 0 0 1 1 rfl rfl rfl rfl
      (by norm_num) (le_refl 0) (by norm_num) (by norm_num)⟩

/-- C3 counterexample to the claim as stated: two distinct 16-bit-precision
working values (0 and 100/65535, i.e. raw values 0 and 100 of a 16-bit
raster) produce identical outputs of the enhancement stage's saturation
sub-step, because `_apply_saturation` quantizes the working image to 8-bit
(256 levels) before the stage's final re-quantization. -/
theorem C3_counterexample :
    ((fun (_ : Fin 1) (_ : Fin 1) (_ : Fin 3) => (0 : ℝ)) ≠
      (fun _ _ _ => (100 / 65535 : ℝ))) ∧
    applySaturation (h := 1) (w := 1) (fun _ m => m) 2 (fun _ _ _ => (0 : ℝ)) =
      applySaturation (h := 1) (w := 1) (fun _ m => m) 2
        (fun _ _ _ => (100 / 65535 : ℝ)) := by
  constructor
  · intro heq
    have h0 := congrFun (congrFun (congrFun heq 0) 0) 0
    norm_num at h0
  · have hA : truncR (clipR (0 : ℝ) 0 1 * 255) = 0 := by
      rw [clipR_of_mem 0 0 1 le_rfl (by norm_num)]
      norm_num [truncR]
    have hB : truncR (clipR (100 / 65535 : ℝ) 0 1 * 255) = 0 := by
      rw [clipR_of_mem _ _ _ (by norm_num) (by norm_num)]
      unfold truncR
      have hf : ⌊(100 / 65535 : ℝ) * 255⌋ = 0 := by
        refine Int.floor_eq_zero_iff.mpr ?_
        constructor
        · positivity
        · norm_num
      rw [hf]
      rfl
    funext y x c
    simp only [applySaturation]
    rw [hA, hB]

/-- C3 (amended): the 16-bit working image does get quantized to 8-bit
inside two sub-steps before the stage's final re-quantization — the
saturation sub-step and the (active, `|k1| ≥ 1e-4`) barrel-distortion
sub-step each depend on the working image only through its 8-bit
quantization, so at most 256 levels of the working values survive them;
the other sub-steps keep full floating-point precision. -/
theorem C3_eight_bit_substeps (h w : ℕ) :
    (∀ (satHSV : ℝ → NImg h w → NImg h w) (s : ℝ) (imgA imgB : RImg h w),
      (∀ y x c, truncR (clipR (imgA y x c) 0 1 * 255) =
        truncR (clipR (imgB y x c) 0 1 * 255)) →
      applySaturation satHSV s imgA = applySaturation satHSV s imgB) ∧
    (∀ (undistort : ℝ → NImg h w → NImg h w) (k : ℝ) (imgA imgB : RImg h w),
      ¬ |k| < 0.0001 →
      (∀ y x c, truncR (imgA y x c * 255) = truncR (imgB y x c * 255)) →
      correctBarrelDistortion undistort k imgA =
        correctBarrelDistortion undistort k imgB) := by
  constructor
  · intro satHSV s imgA imgB hq
    have h8 : (fun (y : Fin h) (x : Fin w) (c : Fin 3) =>
        truncR (clipR (imgA y x c) 0 1 * 255)) =
        (fun y x c => truncR (clipR (imgB y x c) 0 1 * 255)) := by
      funext y x c
      exact hq y x c
    simp only [applySaturation]
    rw [h8]
  · intro undistort k imgA imgB hk hq
    have h8 : (fun (y : Fin h) (x : Fin w) (c : Fin 3) =>
        truncR (imgA y x c * 255)) =
        (fun y x c => truncR (imgB y x c * 255)) := by
      funext y x c
      exact hq y x c
    unfold correctBarrelDistortion
    rw [if_neg hk, if_neg hk]
    simp only [h8]

/-- C3 witness: the amended statement exercised at two concrete working
images (constant 0 and constant 1/300) that share an 8-bit quantization,
for both the saturation sub-step and the active barrel sub-step. -/
theorem C3_eight_bit_substeps_witness :
    (∀ (y x : Fin 1) (c : Fin 3),
      truncR (clipR ((fun (_ : Fin 1) (_ : Fin 1) (_ : Fin 3) => (0 : ℝ)) y x c) 0 1 *
        255) =
      truncR (clipR ((fun (_ : Fin 1) (_ : Fin 1) (_ : Fin 3) => (1 / 300 : ℝ)) y x c)
        0 1 * 255)) ∧
    (¬ |(-0.008 : ℝ)| < 0.0001) ∧
    applySaturation (h := 1) (w := 1) (fun _ m => m) 2 (fun _ _ _ => (0 : ℝ)) =
      applySaturation (h := 1) (w := 1) (fun _ m => m) 2
        (fun _ _ _ => (1 / 300 : ℝ)) ∧
    correctBarrelDistortion (h := 1) (w := 1) (fun _ m => m) (-0.008)
        (fun _ _ _ => (0 : ℝ)) =
      correctBarrelDistortion (h := 1) (w := 1) (fun _ m => m) (-0.008)
        (fun _ _ _ => (1 / 300 : ℝ)) := by
  have hq1 : ∀ (y x : Fin 1) (c : Fin 3),
      truncR (clipR ((fun (_ : Fin 1) (_ : Fin 1) (_ : Fin 3) => (0 : ℝ)) y x c) 0 1 *
        255) =
      truncR (clipR ((fun (_ : Fin 1) (_ : Fin 1) (_ : Fin 3) => (1 / 300 : ℝ)) y x c)
        0 1 * 255) := by
    intro y x c
    rw [clipR_of_mem 0 0 1 le_rfl (by norm_num),
      clipR_of_mem (1 / 300 : ℝ) 0 1 (by norm_num) (by norm_num)]
    unfold truncR
    have hf : ⌊(1 / 300 : ℝ) * 255⌋ = 0 := by
      refine Int.floor_eq_zero_iff.mpr ?_
      constructor
      · positivity
      · norm_num
    rw [hf]
    norm_num
  have hq2 : ∀ (y x : Fin 1) (c : Fin 3),
      truncR ((fun (_ : Fin 1) (_ : Fin 1) (_ : Fin 3) => (0 : ℝ)) y x c * 255) =
      truncR ((fun (_ : Fin 1) (_ : Fin 1) (_ : Fin 3) => (1 / 300 : ℝ)) y x c *
        255) := by
    intro y x c
    unfold truncR
    have hf : ⌊(1 / 300 : ℝ) * 255⌋ = 0 := by
      refine Int.floor_eq_zero_iff.mpr ?_
      constructor
      · positivity
      · norm_num
    norm_num [hf]
  have hk : ¬ |(-0.008 : ℝ)| < 0.0001 := by
    rw [abs_of_nonpos (by norm_num)]
    norm_num
  exact ⟨hq1, hk,
    (C3_eight_bit_substeps 1 1).1 (fun _ m => m) 2 _ _ hq1,
    (C3_eight_bit_substeps 1 1).2 (fun _ m => m) (-0.008) _ _ hk hq2⟩

/-! ## Sharpener (`src/core/sharpen.py`) -/

/-- Rational working raster on an `h × w` grid (`image.astype(np.float32)`,
modelled exactly). -/
abbrev QImg (h w : ℕ) := Fin h → Fin w → Fin 3 → ℚ

/-- External OpenCV primitives used by `Sharpener`, one field per call
site. -/
structure SharpenPrims (h w : ℕ) where
  gaussBlur : ℕ → ℚ → QImg h w → QImg h w
  cvtGray : NImg h w → (Fin h → Fin w → ℕ)
  canny : (Fin h → Fin w → ℕ) → ℕ → ℕ → (Fin h → Fin w → ℕ)
  gaussBlurMask : (Fin h → Fin w → ℚ) → (Fin h → Fin w → ℚ)

/-- Maximum entry of a scalar grid (`arr.max()`; the edge-mask entries it
is applied to are nonnegative, where folding `max` from 0 agrees with the
numpy maximum on every nonempty grid). -/
def gridMaxQ {h w : ℕ} (m : Fin h → Fin w → ℚ) : ℚ :=
  ((List.finRange h).flatMap (fun y => (List.finRange w).map (m y))).foldr max 0

/-- Embedding of `Sharpener._unsharp_mask_edge_aware` (`int(sigma * 3) | 1`
is modelled with the floor, which agrees with Python `int` on the
nonnegative radii cv2 accepts). -/
def unsharpMaskEdgeAware {h w : ℕ} (P : SharpenPrims h w)
    (strength radius : ℚ) (threshold : ℕ) (img : QImg h w) (max_val : ℕ) :
    QImg h w :=
  let sigma := radius * 2
  let ksize := (⌊sigma * 3⌋).toNat ||| 1
  let blurred := P.gaussBlur ksize sigma img
  let difference := fun y x c => img y x c - blurred y x c
  let gray := P.cvtGray (fun y x c => truncQ (img y x c / max_val * 255))
  let edges := P.canny gray 50 150
  let em0 := P.gaussBlurMask (fun y x => ((edges y x : ℕ) : ℚ))
  let edge_mask := fun y x => em0 y x / max (gridMaxQ em0) 1
  let threshold_scaled := (threshold : ℚ) * ((max_val : ℚ) / 255)
  let amp := fun y x =>
    (|difference y x 0| + |difference y x 1| + |difference y x 2|) / 3 >
      threshold_scaled
  let combined := fun y x => (if amp y x then (1 : ℚ) else 0) * edge_mask y x
  fun y x c => img y x c + difference y x c * strength * (0.5 + 0.5 * combined y x)

/-- Embedding of `Sharpener.apply`: identity at strength 0, otherwise the
edge-aware unsharp mask clipped to `[0, max_val]` and cast back to the
original dtype. -/
def sharpenerApply {h w : ℕ} (P : SharpenPrims h w) (strength radius : ℚ)
    (threshold : ℕ) (input : NImg h w) (is16 : Bool) : NImg h w :=
  if strength = 0 then input
  else
    let max_val : ℕ := maxvN is16
    let img : QImg h w := fun y x c => ((input y x c : ℕ) : ℚ)
    let sharpened := unsharpMaskEdgeAware P strength radius threshold img max_val
    fun y x c => truncQ (clipQ (sharpened y x c) 0 max_val)

/-! ## Range invariant (C5) -/

theorem quantize_clip01_le (v : ℝ) (m : ℕ) : truncR (clipR v 0 1 * m) ≤ m := by
  refine truncR_le_of_le _ _ ?_
  calc clipR v 0 1 * m ≤ 1 * m :=
        mul_le_mul_of_nonneg_right (clipR_le v 0 1) (Nat.cast_nonneg m)
    _ = m := one_mul _

theorem truncQ_clip_le (v : ℚ) (m : ℕ) : truncQ (clipQ v 0 m) ≤ m :=
  truncQ_le_of_le _ _ (clipQ_le _ _ _)

theorem applyCorrections_range {h w : ℕ} (undistort : ℝ → NImg h w → NImg h w)
    (gaussBlurChan : (Fin h → Fin w → ℝ) → (Fin h → Fin w → ℝ))
    (coeffs : RX1RCoeffs) (input : NImg h w) (is16 : Bool) :
    ∀ y x c, applyCorrections undistort gaussBlurChan coeffs input is16 y x c ≤
      maxvN is16 := by
  intro y x c
  simp only [applyCorrections]
  cases is16 with
  | false =>
      have := quantize_clip01_le (reduceChromaticAberration gaussBlurChan
        (correctColorCast coeffs.shadow_warmth coeffs.green_blue_shift
          (correctVignette coeffs.vignette_strength
            (correctItalianFlag coeffs.italian_flag_strength
              (correctBarrelDistortion undistort coeffs.barrel_distortion
                (fun y x c => (input y x c : ℝ) / 255))))) y x c) 255
      simpa [maxvN] using this
  | true =>
      have := quantize_clip01_le (reduceChromaticAberration gaussBlurChan
        (correctColorCast coeffs.shadow_warmth coeffs.green_blue_shift
          (correctVignette coeffs.vignette_strength
            (correctItalianFlag coeffs.italian_flag_strength
              (correctBarrelDistortion undistort coeffs.barrel_distortion
                (fun y x c => (input y x c : ℝ) / 65535))))) y x c) 65535
      simpa [maxvN] using this

theorem enhancerApply_range {h w : ℕ} (satHSV : ℝ → NImg h w → NImg h w)
    (cfg : EnhConfig) (input : NImg h w) (is16 : Bool) :
    ∀ y x c, enhancerApply satHSV cfg input is16 y x c ≤ maxvN is16 := by
  intro y x c
  simp only [enhancerApply]
  cases is16 with
  | false => simpa [maxvN] using quantize_clip01_le _ 255
  | true => simpa [maxvN] using quantize_clip01_le _ 65535

theorem sharpenerApply_range {h w : ℕ} (P : SharpenPrims h w)
    (strength radius : ℚ) (threshold : ℕ) (input : NImg h w) (is16 : Bool)
    (hIn : ∀ y x c, input y x c ≤ maxvN is16) :
    ∀ y x c, sharpenerApply P strength radius threshold input is16 y x c ≤
      maxvN is16 := by
  intro y x c
  unfold sharpenerApply
  by_cases hs : strength = 0
  · rw [if_pos hs]
    exact hIn y x c
  · rw [if_neg hs]
    exact truncQ_clip_le _ _

theorem restoreDetail16_le {ι : Type} (P : DenoisePrims ι)
    (original denoised : ι → Fin 3 → ℕ) :
    ∀ i c, restoreDetail16 P original denoised i c ≤ 65535 := by
  intro i c
  unfold restoreDetail16
  refine truncQ_le_of_le _ _ (le_trans (clipQ_le _ _ _) (by norm_num))

theorem denoisePreserveDetail_le {ι : Type} [Fintype ι] [Nonempty ι]
    (P : DenoisePrims ι) (image8 : ι → Fin 3 → ℕ) (hh : ℕ)
    (hNl : ∀ img hh2 t sw i c, P.nlMeans img hh2 t sw i c ≤ 255)
    (hBlurPos : ∀ m : ι → ℚ, (∀ i, 0 ≤ m i) → ∀ i, 0 ≤ P.gaussBlur55 m i) :
    ∀ i c, denoisePreserveDetail P image8 hh i c ≤ 255 := by
  intro i c
  unfold denoisePreserveDetail
  set blurred := P.gaussBlur55 (fun j =>
    ((P.dilate (P.canny (P.cvtGray image8) 50 150) j : ℕ) : ℚ)) with hblurred
  have hbpos : ∀ j, 0 ≤ blurred j := by
    refine hBlurPos _ (fun j => ?_)
    positivity
  have hden : (1 : ℚ) ≤ max (imgMax blurred) 1 := le_max_right _ _
  have hdenpos : (0 : ℚ) < max (imgMax blurred) 1 := lt_of_lt_of_le one_pos hden
  have hm0 : 0 ≤ blurred i / max (imgMax blurred) 1 :=
    div_nonneg (hbpos i) hdenpos.le
  have hm1 : blurred i / max (imgMax blurred) 1 ≤ 1 := by
    rw [div_le_one hdenpos]
    exact le_trans (le_imgMax blurred i) (le_max_left _ _)
  set m := blurred i / max (imgMax blurred) 1
  have ha : ((P.nlMeans image8 hh 7 21 i c : ℕ) : ℚ) ≤ 255 := by
    exact_mod_cast hNl image8 hh 7 21 i c
  have hb : ((P.nlMeans image8 (max 2 (hh / 2)) 5 15 i c : ℕ) : ℚ) ≤ 255 := by
    exact_mod_cast hNl image8 (max 2 (hh / 2)) 5 15 i c
  refine truncQ_le_of_le _ _ ?_
  have hcomb : ((P.nlMeans image8 hh 7 21 i c : ℕ) : ℚ) * (1 - m) +
      ((P.nlMeans image8 (max 2 (hh / 2)) 5 15 i c : ℕ) : ℚ) * m ≤
      255 * (1 - m) + 255 * m := by
    refine add_le_add ?_ ?_
    · exact mul_le_mul_of_nonneg_right ha (by linarith)
    · exact mul_le_mul_of_nonneg_right hb hm0
  calc ((P.nlMeans image8 hh 7 21 i c : ℕ) : ℚ) * (1 - m) +
      ((P.nlMeans image8 (max 2 (hh / 2)) 5 15 i c : ℕ) : ℚ) * m ≤
        255 * (1 - m) + 255 * m := hcomb
    _ = 255 := by ring
    _ = ((255 : ℕ) : ℚ) := by norm_num

theorem denoiserApply_range {ι : Type} [Fintype ι] [Nonempty ι]
    (P : DenoisePrims ι) (s : Strength) (pd : Bool) (image : ι → Fin 3 → ℕ)
    (is16 : Bool)
    (hIn : ∀ i c, image i c ≤ maxvN is16)
    (hNl : ∀ img hh t sw i c, P.nlMeans img hh t sw i c ≤ 255)
    (hBlurPos : ∀ m : ι → ℚ, (∀ i, 0 ≤ m i) → ∀ i, 0 ≤ P.gaussBlur55 m i) :
    ∀ r, denoiserApply P s pd image is16 = some r → ∀ i c, r i c ≤ maxvN is16 := by
  intro r hr i c
  unfold denoiserApply at hr
  by_cases hoff : s = .off
  · rw [if_pos hoff] at hr
    obtain rfl := Option.some.inj hr
    exact hIn i c
  · rw [if_neg hoff] at hr
    dsimp only at hr
    by_cases h0 : effectiveH P s (if is16 then (fun i c => image i c / 256) else image) = 0
    · rw [if_pos h0] at hr
      obtain rfl := Option.some.inj hr
      exact hIn i c
    · rw [if_neg h0] at hr
      cases pd with
      | false => exact absurd hr (by simp)
      | true =>
          dsimp only at hr
          cases is16 with
          | false =>
              simp only [Bool.false_eq_true, if_false] at hr h0
              obtain rfl := Option.some.inj hr
              simpa [maxvN] using
                denoisePreserveDetail_le P image _ hNl hBlurPos i c
          | true =>
              simp only [if_true] at hr h0
              obtain rfl := Option.some.inj hr
              simpa [maxvN] using restoreDetail16_le P image _ i c

/-- C5: every pipeline stage clips before re-quantizing, so for every valid
input raster (pixel values within the dtype maximum) and every
configuration, each stage's output values lie within [0, 255] for 8-bit
rasters and [0, 65535] for 16-bit rasters (nonnegativity holds by type);
for the denoiser, the `uint8` range of the external non-local-means output
and the nonnegativity of the external Gaussian blur enter as hypotheses. -/
theorem C5_range_invariant :
    (∀ (h w : ℕ) (undistort : ℝ → NImg h w → NImg h w)
      (gaussBlurChan : (Fin h → Fin w → ℝ) → (Fin h → Fin w → ℝ))
      (coeffs : RX1RCoeffs) (input : NImg h w) (is16 : Bool)
      (y : Fin h) (x : Fin w) (c : Fin 3),
      applyCorrections undistort gaussBlurChan coeffs input is16 y x c ≤
        maxvN is16) ∧
    (∀ (ι : Type) [Fintype ι] [Nonempty ι] (P : DenoisePrims ι) (s : Strength)
      (pd : Bool) (image : ι → Fin 3 → ℕ) (is16 : Bool),
      (∀ i c, image i c ≤ maxvN is16) →
      (∀ img hh t sw i c, P.nlMeans img hh t sw i c ≤ 255) →
      (∀ m : ι → ℚ, (∀ i, 0 ≤ m i) → ∀ i, 0 ≤ P.gaussBlur55 m i) →
      ∀ r, denoiserApply P s pd image is16 = some r →
        ∀ i c, r i c ≤ maxvN is16) ∧
    (∀ (h w : ℕ) (satHSV : ℝ → NImg h w → NImg h w) (cfg : EnhConfig)
      (input : NImg h w) (is16 : Bool) (y : Fin h) (x : Fin w) (c : Fin 3),
      enhancerApply satHSV cfg input is16 y x c ≤ maxvN is16) ∧
    (∀ (h w : ℕ) (P : SharpenPrims h w) (strength radius : ℚ) (threshold : ℕ)
      (input : NImg h w) (is16 : Bool),
      (∀ y x c, input y x c ≤ maxvN is16) →
      ∀ y x c, sharpenerApply P strength radius threshold input is16 y x c ≤
        maxvN is16) := by
  refine ⟨?_, ?_, ?_, ?_⟩
  · intro h w u g cf inp b y x c
    exact applyCorrections_range u g cf inp b y x c
  · intro ι iF iN P s pd image is16 hIn hNl hBl
    exact denoiserApply_range P s pd image is16 hIn hNl hBl
  · intro h w sp cfg inp b y x c
    exact enhancerApply_range sp cfg inp b y x c
  · intro h w P st ra t inp b hIn
    exact sharpenerApply_range P st ra t inp b hIn

/-- Concrete denoise primitives over a one-pixel grid whose non-local-means
output is uint8-bounded, used to instantiate the range invariant. -/
def boundedPrims : DenoisePrims (Fin 1) :=
  ⟨fun img i => img i 0, fun _ => 0, fun _ _ _ _ => 0, fun m => m,
    fun m => m, fun _ _ _ _ => fun _ _ => 0, fun img => img⟩

/-- Concrete sharpen primitives over a 1 × 1 grid. -/
def trivSharpen : SharpenPrims 1 1 :=
  ⟨fun _ _ m => m, fun img y x => img y x 0, fun _ _ _ => fun _ _ => 0,
    fun m => m⟩

/-- C5 witness: the range invariant of all four stages evaluated at
concrete one-pixel rasters and primitives. -/
theorem C5_range_invariant_witness :
    (∀ (i : Fin 1) (c : Fin 3), uniform1 0 i c ≤ maxvN false) ∧
    (∀ (img : Fin 1 → Fin 3 → ℕ) (hh t sw : ℕ) (i : Fin 1) (c : Fin 3),
      boundedPrims.nlMeans img hh t sw i c ≤ 255) ∧
    (∀ m : Fin 1 → ℚ, (∀ i, 0 ≤ m i) → ∀ i, 0 ≤ boundedPrims.gaussBlur55 m i) ∧
    applyCorrections (h := 1) (w := 1) (fun _ m => m) (fun m => m) defaultRX1R
      (fun _ _ _ => 0) false 0 0 0 ≤ maxvN false ∧
    (∀ r, denoiserApply boundedPrims Strength.light true (uniform1 0) false =
      some r → ∀ i c, r i c ≤ maxvN false) ∧
    enhancerApply (h := 1) (w := 1) (fun _ m => m) ⟨2, 1, 1, 0, 0, true⟩
      (fun _ _ _ => 0) false 0 0 0 ≤ maxvN false ∧
    sharpenerApply trivSharpen 1 1 3 (fun _ _ _ => 0) false 0 0 0 ≤ maxvN false :=
  ⟨fun _ _ => by norm_num [uniform1, maxvN],
   fun _ _ _ _ _ _ => Nat.zero_le 255,
   fun m hm i => hm i,
   C5_range_invariant.1 1 1 (fun _ m => m) (fun m => m) defaultRX1R
     (fun _ _ _ => 0) false 0 0 0,
   C5_range_invariant.2.1 (Fin 1) boundedPrims Strength.light true (uniform1 0)
     false (fun _ _ => by norm_num [uniform1, maxvN])
     (fun _ _ _ _ _ _ => Nat.zero_le 255) (fun m hm i => hm i),
   C5_range_invariant.2.2.1 1 1 (fun _ m => m) ⟨2, 1, 1, 0, 0, true⟩
     (fun _ _ _ => 0) false 0 0 0,
   C5_range_invariant.2.2.2 1 1 trivSharpen 1 1 3 (fun _ _ _ => 0) false
     (fun _ _ _ => Nat.zero_le 255) 0 0 0⟩
